import Mathlib

/-!
# Verification of the search/replace patch engine (ApplyDiffTool)

A shallow embedding of the matching-and-splicing engine of
`src/tools/ApplyDiffTool.ts`: similarity scoring (`levenshteinDistance`,
`getSimilarity`), line-number normalization (`everyLineHasLineNumbers`,
`stripLineNumbers`), diff-marker parsing (`parseDiff`), the hinted /
middle-out matcher and the indentation-aware splicer
(`SearchReplaceDiffStrategy.applyDiff`, embedded as `applyDiff` /
`applyDiffCore`).

Text is modelled as Lean `String` (a list of characters); JS numbers that
hold scores are modelled as `ℚ` (the engine only ever divides two
naturals), line indices as `ℕ` / `ℤ` (the JS code uses `-1` as a sentinel
match index), and the optional 1-based line hints as `Option ℕ` with the
JS truthiness convention (`0` behaves like an absent hint, mirrored by
`hintGiven`).  Strings are treated as character sequences (JS indexes
UTF-16 code units; the two agree on all text without supplementary-plane
characters, and nothing in the engine is sensitive to the difference).
-/

namespace ApplyDiffTool

/-- The set matched by the JavaScript regex class `\s` (whitespace):
ASCII whitespace, NBSP, BOM, and the Unicode space separators used by
ECMA-262. -/
def isJsWs (c : Char) : Bool :=
  c = ' ' || c = '\t' || c = '\n' || c = '\r' || c = '\x0b' || c = '\x0c' ||
  c = '\u00A0' || c = '\u1680' ||
  ('\u2000' ≤ c && c ≤ '\u200A') ||
  c = '\u2028' || c = '\u2029' || c = '\u202F' || c = '\u205F' ||
  c = '\u3000' || c = '\uFEFF'

/-- JS `String.prototype.trim()`: strip leading and trailing whitespace. -/
def jsTrim (s : String) : String :=
  String.mk (((s.data.dropWhile isJsWs).reverse.dropWhile isJsWs).reverse)

/-- One pass of `replace(/\s+/g, ' ')`: every maximal run of whitespace
characters becomes a single space.  The boolean records whether the
previous character was part of a whitespace run. -/
def collapseWsAux : Bool → List Char → List Char
  | _, [] => []
  | inRun, c :: rest =>
    if isJsWs c then
      if inRun then collapseWsAux true rest
      else ' ' :: collapseWsAux true rest
    else c :: collapseWsAux false rest

/-- JS `str.replace(/\s+/g, ' ')` (ApplyDiffTool.ts line 47). -/
def collapseWs (s : String) : String :=
  String.mk (collapseWsAux false s.data)

/-- The helper `normalizeStr` from `getSimilarity` (line 47):
`str.replace(/\s+/g, ' ').trim()`. -/
def normalizeStr (s : String) : String :=
  jsTrim (collapseWs s)

/-- Inner worker for the Levenshtein distance: `levAux (lev xs) x b`
computes the distance between `x :: xs` and `b`, given the distance
function against `xs`.  Structured this way so that the recursion is
structural (and hence kernel-reducible). -/
def levAux (levxs : List Char → ℕ) (x : Char) : List Char → ℕ
  | [] => levxs [] + 1
  | y :: ys =>
    if x = y then levxs ys
    else 1 + min (levxs ys) (min (levAux levxs x ys) (levxs (y :: ys)))

/-- Levenshtein distance between two character lists.  The source
(lines 17–42) computes it with the textbook dynamic-programming matrix
`m[i][j]` (equal characters take the diagonal entry, unequal characters
take `1 + min` of the three neighbours); this is the same recurrence
written recursively. -/
def lev : List Char → List Char → ℕ
  | [], b => b.length
  | x :: xs, b => levAux (lev xs) x b

/-- The function `levenshteinDistance` (lines 17–42). -/
def levenshteinDistance (a b : String) : ℕ :=
  lev a.data b.data

/-- The function `getSimilarity` (lines 44–56).  Returns `1` for an empty search
string, `1` for strings equal after whitespace normalization, and
otherwise `1 - distance / maxLength` as an exact rational. -/
def getSimilarity (original search : String) : ℚ :=
  if search = "" then 1
  else
    let normalizedOriginal := normalizeStr original
    let normalizedSearch := normalizeStr search
    if normalizedOriginal = normalizedSearch then 1
    else
      let distance := levenshteinDistance normalizedOriginal normalizedSearch
      let maxLength := max normalizedOriginal.length normalizedSearch.length
      1 - (distance : ℚ) / (maxLength : ℚ)

/-- Worker for `split(/\r?\n/)`: a separator is a `"\r\n"` pair or a bare
`'\n'`; a lone `'\r'` is ordinary content.  `acc` holds the current line's
characters in reverse. -/
def splitLinesAux : List Char → List Char → List String
  | [], acc => [String.mk acc.reverse]
  | '\r' :: '\n' :: rest, acc => String.mk acc.reverse :: splitLinesAux rest []
  | '\n' :: rest, acc => String.mk acc.reverse :: splitLinesAux rest []
  | c :: rest, acc => splitLinesAux rest (c :: acc)

/-- JS `content.split(/\r?\n/)` (lines 70, 75, 111–113).  Like in
JavaScript, splitting the empty string yields `[""]` and trailing empty
lines are preserved. -/
def splitLines (s : String) : List String :=
  splitLinesAux s.data []

/-- JS `Array.prototype.join(sep)`. -/
def joinWith (sep : String) : List String → String
  | [] => ""
  | [x] => x
  | x :: y :: xs => x ++ sep ++ joinWith sep (y :: xs)

/-- JS `content.includes('\r\n')` (lines 80, 104). -/
def containsCRLF : List Char → Bool
  | [] => false
  | c :: rest =>
    (c = '\r' && match rest with | '\n' :: _ => true | _ => false) ||
    containsCRLF rest

/-- The detected line ending of a document:
`originalContent.includes('\r\n') ? '\r\n' : '\n'` (line 104). -/
def detectEnding (s : String) : String :=
  if containsCRLF s.data then "\r\n" else "\n"

/-- The deterministic parse of the test regex
`/^\s*\d+\s+\|(?!\|)/` (line 71): optional whitespace, one or more
digits, one or more whitespace characters, a pipe not followed by a
second pipe.  Returns the text after the pipe when the prefix matches.
(The character classes involved — `\s` and `\d` — are disjoint, so the
greedy quantifiers are deterministic here.) -/
def lineNumMark (l : List Char) : Option (List Char) :=
  let l1 := l.dropWhile isJsWs
  let digits := l1.takeWhile Char.isDigit
  if digits.isEmpty then none
  else
    let l2 := l1.dropWhile Char.isDigit
    let ws := l2.takeWhile isJsWs
    if ws.isEmpty then none
    else
      match l2.dropWhile isJsWs with
      | '|' :: rest =>
        match rest with
        | '|' :: _ => none
        | _ => some rest
      | _ => none

/-- The function `everyLineHasLineNumbers` (lines 69–72). -/
def everyLineHasLineNumbers (content : String) : Bool :=
  let lines := splitLines content
  !lines.isEmpty && lines.all (fun line => (lineNumMark line.data).isSome)

/-- Holds when the character is matched by `.` in a JavaScript regex
without the `s` flag (anything but a line terminator). -/
def isJsDot (c : Char) : Bool :=
  !(c = '\n' || c = '\r' || c = '\u2028' || c = '\u2029')

/-- The capture of `/^\s*\d+\s+\|(?!\|)\s?(.*)$/` (line 77) on one line,
or `none` when the line does not match.  After the pipe the regex
prefers to consume one whitespace character; `(.*)$` then requires every
remaining character to be a non-line-terminator. -/
def stripLineMatch (l : List Char) : Option (List Char) :=
  match lineNumMark l with
  | none => none
  | some rest =>
    match rest with
    | [] => some []
    | c :: tail =>
      if isJsWs c && tail.all isJsDot then some tail
      else if (c :: tail).all isJsDot then some (c :: tail)
      else none

/-- The function `stripLineNumbers` (lines 74–82): strip the annotation from every
line that matches, leave non-matching lines unchanged, and rejoin with
the content's detected line ending. -/
def stripLineNumbers (content : String) : String :=
  let lines := splitLines content
  let processedLines := lines.map (fun line =>
    match stripLineMatch line.data with
    | some cap => String.mk cap
    | none => line)
  let lineEnding := if containsCRLF content.data then "\r\n" else "\n"
  joinWith lineEnding processedLines

/-- The conditional normalization step of `applyDiff` (lines 106–109):
strip line-number annotations from the SEARCH and REPLACE blocks exactly
when every line of both blocks carries one. -/
def normalizeBlocks (searchContent replaceContent : String) : String × String :=
  if everyLineHasLineNumbers searchContent && everyLineHasLineNumbers replaceContent
  then (stripLineNumbers searchContent, stripLineNumbers replaceContent)
  else (searchContent, replaceContent)

/-- JS `content === '' ? [] : content.split(/\r?\n/)` (lines 111–112). -/
def blockLines (content : String) : List String :=
  if content = "" then [] else splitLines content

/-- JS truthiness of an optional numeric line hint: `undefined` and `0`
are falsy (the source tests the raw values, e.g. `!startLine` on
line 115 and `startLine && endLine` on lines 122 and 137). -/
def hintGiven (h : Option ℕ) : Bool :=
  h.getD 0 ≠ 0

/-- The mutable scan state of `applyDiff` (lines 129–131): `matchIndex`
(-1 until a candidate wins), `bestMatchScore`, `bestMatchContent`. -/
structure ScanState where
  matchIndex : ℤ
  bestMatchScore : ℚ
  bestMatchContent : String
deriving DecidableEq

/-- JS `originalLines.slice(i, i + len).join('\n')` — the candidate chunk
starting at 0-based line `i` (lines 148, 169, 180). -/
def chunkAt (lines : List String) (i len : ℕ) : String :=
  joinWith "\n" ((lines.drop i).take len)

/-- Probing one candidate window (lines 169–175 / 180–186): score the
chunk at `i` and replace the running best exactly on a strictly greater
similarity. -/
def probeStep (lines : List String) (searchChunk : String) (slen : ℕ)
    (st : ScanState) (i : ℕ) : ScanState :=
  let chunk := chunkAt lines i slen
  let similarity := getSimilarity chunk searchChunk
  if st.bestMatchScore < similarity then ⟨i, similarity, chunk⟩ else st

/-- The indices probed by the left cursor of the middle-out loop:
`mid, mid - 1, …, ws` (empty when `mid < ws`). -/
def probeDown (ws : ℕ) : ℕ → List ℕ
  | 0 => if ws = 0 then [0] else []
  | a + 1 => if a + 1 < ws then [] else (a + 1) :: probeDown ws a

/-- The indices probed by the right cursor of the middle-out loop:
`b, b + 1, …, E` (empty when `E < b`). -/
def probeUp (b : ℕ) (E : ℤ) : List ℕ :=
  List.range' b (E + 1 - (b : ℤ)).toNat

/-- Interleave two lists, first list first.  This is the order in which
the middle-out loop visits its left and right candidates (one of each
per iteration, left first; once a side is exhausted the other continues
alone). -/
def interleave : List ℕ → List ℕ → List ℕ
  | [], ys => ys
  | x :: xs, [] => x :: xs
  | x :: xs, y :: ys => x :: y :: interleave xs ys

/-- The full middle-out probe order for the window `[ws, we)` and a
search block of `slen` lines: both cursors start at the midpoint
`⌊(ws + we) / 2⌋` (left cursor at `mid`, right cursor at `mid + 1`,
lines 163–165); the left cursor keeps within `ws` and the right cursor
within `we - slen` (lines 167–189). -/
def probeList (ws we slen : ℕ) : List ℕ :=
  let mid := (ws + we) / 2
  interleave (probeDown ws mid) (probeUp (mid + 1) ((we : ℤ) - (slen : ℤ)))

/-- The middle-out scan (lines 161–190) as a fold of `probeStep` over
the probe order.  `scanLoop_eq_runScan` below proves this equal to the
literal while-loop of the source. -/
def runScan (lines : List String) (searchChunk : String) (slen ws we : ℕ)
    (st : ScanState) : ScanState :=
  (probeList ws we slen).foldl (probeStep lines searchChunk slen) st

/-- The literal while loop of lines 167–189: probe `left` if it has not
passed `ws`, then probe `right` if it has not passed `E = we - slen`,
decrement/increment, and stop when both cursors are out of range. -/
def scanLoop (lines : List String) (searchChunk : String) (slen ws : ℕ)
    (E : ℤ) (left right : ℤ) (st : ScanState) : ScanState :=
  if h : (ws : ℤ) ≤ left ∨ right ≤ E then
    let st1 := if (ws : ℤ) ≤ left then probeStep lines searchChunk slen st left.toNat else st
    let st2 := if right ≤ E then probeStep lines searchChunk slen st1 right.toNat else st1
    scanLoop lines searchChunk slen ws E (left - 1) (right + 1) st2
  else st
termination_by ((left + 1 - (ws : ℤ)).toNat + (E + 1 - right).toNat)
decreasing_by omega

/-- The fallback search window when the hinted exact check misses
(lines 156–157): `[max(0, startLine - (bufferLines + 1)),
min(docLines, endLine + bufferLines))`.  (Natural subtraction performs
the `Math.max(0, ·)` clamp.) -/
def hintWindow (n s e buf : ℕ) : ℕ × ℕ :=
  (s - (buf + 1), min n (e + buf))

/-- The matching phase of `applyDiff` (lines 129–190): the hinted exact
check (accepted immediately at `startLine - 1` when it clears the
threshold, lines 137–155), the window narrowing on a hinted miss
(lines 156–158), and the middle-out scan (lines 161–190).  Returns the
bounds-validation error of lines 141–146 as `Sum.inl`. -/
def matchPhase (originalLines searchLines : List String)
    (startLine endLine : Option ℕ) (fuzzyThreshold : ℚ) (bufferLines : ℕ) :
    (ℕ × ℕ) ⊕ ScanState :=
  let searchChunk := joinWith "\n" searchLines
  if hintGiven startLine && hintGiven endLine then
    let s := startLine.getD 0
    let e := endLine.getD 0
    if originalLines.length ≤ e - 1 ∨ e - 1 < s - 1 then
      Sum.inl (s, e)
    else
      let originalChunk := chunkAt originalLines (s - 1) (e + 1 - s)
      let similarity := getSimilarity originalChunk searchChunk
      if fuzzyThreshold ≤ similarity then
        Sum.inr ⟨(s : ℤ) - 1, similarity, originalChunk⟩
      else
        let w := hintWindow originalLines.length s e bufferLines
        runScan originalLines searchChunk searchLines.length w.1 w.2 ⟨-1, 0, ""⟩ |> Sum.inr
  else
    runScan originalLines searchChunk searchLines.length 0 originalLines.length ⟨-1, 0, ""⟩ |> Sum.inr

/-- JS `line.match(/^[\t ]*/)` — the leading run of tabs and spaces
(lines 219, 224, 230). -/
def leadIndent (s : String) : String :=
  String.mk (s.data.takeWhile (fun c => c = '\t' || c = ' '))

/-- The indentation-reconciling rewrite of the REPLACE lines
(lines 217–243): re-anchor each replace line's indentation, relative to
the first SEARCH line's indentation, onto the first matched line's
indentation, and append the trimmed line content. -/
def indentReplace (matchedLines searchLines replaceLines : List String) : List String :=
  let matchedIndent := ((matchedLines.map leadIndent).head?).getD ""
  let searchBaseIndent := ((searchLines.map leadIndent).head?).getD ""
  replaceLines.map (fun line =>
    let currentIndent := leadIndent line
    let searchBaseLevel := searchBaseIndent.length
    let currentLevel := currentIndent.length
    let relativeLevel : ℤ := (currentLevel : ℤ) - (searchBaseLevel : ℤ)
    let finalIndent :=
      if relativeLevel < 0 then
        String.mk (matchedIndent.data.take ((matchedIndent.length : ℤ) + relativeLevel).toNat)
      else
        matchedIndent ++ String.mk (currentIndent.data.drop searchBaseLevel)
    finalIndent ++ jsTrim line)

/-- The structured failure cases of `applyDiff`.  The source renders
each of these as a human-readable `error` string (lines 96–100, 115–127,
141–146, 192–215); the formatted message text is presentation and is not
modelled, only the discriminating case and the structured data it
embeds. -/
inductive DiffError where
  | invalidFormat
  | emptySearchNoStart
  | emptySearchRange (startLine endLine : ℕ)
  | badRange (startLine endLine docLines : ℕ)
  | noMatch (bestScore threshold : ℚ) (matchIndex : ℤ) (bestContent : String)
deriving DecidableEq

/-- The type `DiffResult` (lines 6–14): success with the final content, or a
structured failure. -/
inductive DiffResult where
  | success (content : String)
  | failure (error : DiffError)
deriving DecidableEq

/-- The body of `SearchReplaceDiffStrategy.applyDiff` after the marker
regex has produced the SEARCH and REPLACE blocks (lines 103–253):
normalization, the empty-search hint-consistency checks, matching, the
threshold check, indentation-adjusted splicing. -/
def applyDiffCore (originalContent searchContentRaw replaceContentRaw : String)
    (startLine endLine : Option ℕ) (fuzzyThreshold : ℚ) (bufferLines : ℕ) :
    DiffResult :=
  let lineEnding := detectEnding originalContent
  let blocks := normalizeBlocks searchContentRaw replaceContentRaw
  let searchLines := blockLines blocks.1
  let replaceLines := blockLines blocks.2
  let originalLines := splitLines originalContent
  if searchLines.isEmpty && !hintGiven startLine then
    DiffResult.failure DiffError.emptySearchNoStart
  else if searchLines.isEmpty && hintGiven startLine && hintGiven endLine &&
      startLine.getD 0 ≠ endLine.getD 0 then
    DiffResult.failure (DiffError.emptySearchRange (startLine.getD 0) (endLine.getD 0))
  else
    match matchPhase originalLines searchLines startLine endLine fuzzyThreshold bufferLines with
    | Sum.inl se => DiffResult.failure (DiffError.badRange se.1 se.2 originalLines.length)
    | Sum.inr st =>
      if st.matchIndex = -1 ∨ st.bestMatchScore < fuzzyThreshold then
        DiffResult.failure
          (DiffError.noMatch st.bestMatchScore fuzzyThreshold st.matchIndex st.bestMatchContent)
      else
        let m := st.matchIndex.toNat
        let matchedLines := (originalLines.drop m).take searchLines.length
        let indentedReplaceLines := indentReplace matchedLines searchLines replaceLines
        let beforeMatch := originalLines.take m
        let afterMatch := originalLines.drop (m + searchLines.length)
        DiffResult.success (joinWith lineEnding (beforeMatch ++ indentedReplaceLines ++ afterMatch))

/-- First occurrence of `"<<<<<<< SEARCH\n"`; returns the text after it.
The overall regex (line 95) matches at the leftmost position at which
the whole pattern can complete, and the pattern begins with this
literal; if the rest of the pattern completes after a later occurrence
of the literal it also completes after the first one (the lazy group
absorbs the difference), so committing to the first occurrence is
faithful. -/
def findSearchMarker : List Char → Option (List Char)
  | [] => none
  | c :: rest =>
    if List.isPrefixOf ("<<<<<<< SEARCH\n".data) (c :: rest) then
      some ((c :: rest).drop 15)
    else findSearchMarker rest

/-- Substring test: `containsSub pat l` holds when `pat` occurs as a contiguous substring of `l`. -/
def containsSub (pat : List Char) : List Char → Bool
  | [] => pat.isEmpty
  | c :: rest => List.isPrefixOf pat (c :: rest) || containsSub pat rest

/-- The lazy group-1 split of the marker regex: find the least `k` such
that the text after the first `k` characters starts with the separator
(`"\n=======\n"` preferred over `"=======\n"`, mirroring the greedy
`\n?`) and is followed somewhere by `">>>>>>> REPLACE"` (otherwise the
regex backtracks and grows group 1 further).  Returns the group-1
characters and the remainder after the separator. -/
def splitAtSep : List Char → Option (List Char × List Char)
  | [] => none
  | c :: rest =>
    if List.isPrefixOf ("\n=======\n".data) (c :: rest) &&
        containsSub (">>>>>>> REPLACE".data) ((c :: rest).drop 9) then
      some ([], (c :: rest).drop 9)
    else if List.isPrefixOf ("=======\n".data) (c :: rest) &&
        containsSub (">>>>>>> REPLACE".data) ((c :: rest).drop 8) then
      some ([], (c :: rest).drop 8)
    else
      match splitAtSep rest with
      | some gr => some (c :: gr.1, gr.2)
      | none => none

/-- The lazy group-2 split: least `k` such that the remainder starts
with `"\n>>>>>>> REPLACE"` (preferred) or `">>>>>>> REPLACE"`.  Returns
the group-2 characters. -/
def splitAtEnd : List Char → Option (List Char)
  | [] => none
  | c :: rest =>
    if List.isPrefixOf ("\n>>>>>>> REPLACE".data) (c :: rest) then some []
    else if List.isPrefixOf (">>>>>>> REPLACE".data) (c :: rest) then some []
    else
      match splitAtEnd rest with
      | some g => some (c :: g)
      | none => none

/-- The marker regex match of line 95,
`/<<<<<<< SEARCH\n([\s\S]*?)\n?=======\n([\s\S]*?)\n?>>>>>>> REPLACE/`,
as a deterministic parser: returns the SEARCH and REPLACE groups, or
`none` when the diff text has no well-formed marker block. -/
def parseDiff (diffContent : String) : Option (String × String) :=
  match findSearchMarker diffContent.data with
  | none => none
  | some t =>
    match splitAtSep t with
    | none => none
    | some gr =>
      match splitAtEnd gr.2 with
      | none => none
      | some g2 => some (String.mk gr.1, String.mk g2)

/-- The method `SearchReplaceDiffStrategy.applyDiff` (lines 94–253): parse the
marker block (failing with the syntax error of lines 96–100), then run
the core. -/
def applyDiff (originalContent diffContent : String)
    (startLine endLine : Option ℕ) (fuzzyThreshold : ℚ) (bufferLines : ℕ) :
    DiffResult :=
  match parseDiff diffContent with
  | none => DiffResult.failure DiffError.invalidFormat
  | some sr => applyDiffCore originalContent sr.1 sr.2 startLine endLine fuzzyThreshold bufferLines

/-! ## Basic properties of the similarity scoring -/

theorem lev_nil_right (a : List Char) : lev a [] = a.length := by
  induction a with
  | nil => rfl
  | cons x xs ih => simp [lev, levAux, ih]

theorem lev_cons_cons (x y : Char) (xs ys : List Char) :
    lev (x :: xs) (y :: ys) =
      if x = y then lev xs ys
      else 1 + min (lev xs ys) (min (lev (x :: xs) ys) (lev xs (y :: ys))) := by
  rfl

theorem lev_comm_aux : ∀ (n : ℕ) (a b : List Char), a.length + b.length ≤ n →
    lev a b = lev b a := by
  intro n
  induction n with
  | zero =>
    intro a b hab
    have ha : a = [] := List.length_eq_zero.mp (by omega)
    have hb : b = [] := List.length_eq_zero.mp (by omega)
    simp [ha, hb]
  | succ n ih =>
    intro a b hab
    match a, b with
    | [], b => simp [lev, lev_nil_right]
    | x :: xs, [] => simp [lev, levAux, lev_nil_right]
    | x :: xs, y :: ys =>
      rw [lev_cons_cons, lev_cons_cons]
      simp only [List.length_cons] at hab
      have h1 : lev xs ys = lev ys xs := ih xs ys (by omega)
      have h2 : lev (x :: xs) ys = lev ys (x :: xs) := ih (x :: xs) ys (by simp; omega)
      have h3 : lev xs (y :: ys) = lev (y :: ys) xs := ih xs (y :: ys) (by simp; omega)
      by_cases hxy : x = y
      · simp [hxy, h1]
      · rw [if_neg hxy, if_neg (fun h => hxy h.symm), h1, h2, h3]
        rw [min_comm (lev (y :: ys) xs) (lev ys (x :: xs))]

/-- Levenshtein distance is symmetric. -/
theorem lev_comm (a b : List Char) : lev a b = lev b a :=
  lev_comm_aux (a.length + b.length) a b le_rfl

theorem levenshteinDistance_comm (a b : String) :
    levenshteinDistance a b = levenshteinDistance b a :=
  lev_comm a.data b.data

/-- Any string has similarity 1 with itself. -/
theorem getSimilarity_self (s : String) : getSimilarity s s = 1 := by
  unfold getSimilarity
  by_cases h : s = "" <;> simp [h]

/-! ## C6 — symmetry of the similarity function -/

/-- C6 counterexample: `getSimilarity` is **not** symmetric as claimed
for all strings: an empty second argument scores `1` against `"x"`
(the empty-search fast path of line 45), while the mirrored call scores
`0`. -/
theorem claim_C6_counterexample :
    ¬ (getSimilarity "x" "" = getSimilarity "" "x") := by
  with_unfolding_all decide

/-- C6 (amended): the similarity function is symmetric on non-empty
strings: for all `a ≠ ""` and `b ≠ ""`,
`getSimilarity a b = getSimilarity b a`.  (When exactly one argument is
the empty string the empty-search fast path breaks symmetry.) -/
theorem claim_C6 (a b : String) (ha : a ≠ "") (hb : b ≠ "") :
    getSimilarity a b = getSimilarity b a := by
  simp only [getSimilarity, if_neg ha, if_neg hb]
  by_cases h : normalizeStr a = normalizeStr b
  · rw [if_pos h, if_pos h.symm]
  · rw [if_neg h, if_neg (fun hh => h hh.symm), levenshteinDistance_comm,
      Nat.max_comm]

/-- Witness for C6 at a concrete input. -/
theorem claim_C6_witness :
    ("ab" : String) ≠ "" ∧ ("ba" : String) ≠ "" ∧
      getSimilarity "ab" "ba" = getSimilarity "ba" "ab" :=
  ⟨by decide, by decide, claim_C6 "ab" "ba" (by decide) (by decide)⟩

/-! ## C8 — when line-number annotations are stripped -/

theorem splitLinesAux_ne_nil (l acc : List Char) : splitLinesAux l acc ≠ [] := by
  induction l, acc using splitLinesAux.induct <;> simp_all [splitLinesAux]

theorem splitLines_ne_nil (s : String) : splitLines s ≠ [] :=
  splitLinesAux_ne_nil s.data []

/-- The test `everyLineHasLineNumbers` states exactly that every line of the
block matches the annotation prefix pattern. -/
theorem everyLineHasLineNumbers_iff (content : String) :
    everyLineHasLineNumbers content = true ↔
      ∀ ln ∈ splitLines content, (lineNumMark ln.data).isSome := by
  unfold everyLineHasLineNumbers
  simp [List.isEmpty_iff, splitLines_ne_nil content]

/-- C8: line-number annotations are stripped from the SEARCH and
REPLACE blocks if and only if every line of both blocks matches the
annotation pattern; when this fails — in particular when exactly one of
the two blocks is fully annotated — both blocks are left untouched. -/
theorem claim_C8 (s r : String) :
    (((∀ ln ∈ splitLines s, (lineNumMark ln.data).isSome) ∧
      (∀ ln ∈ splitLines r, (lineNumMark ln.data).isSome)) →
        normalizeBlocks s r = (stripLineNumbers s, stripLineNumbers r)) ∧
    (¬ ((∀ ln ∈ splitLines s, (lineNumMark ln.data).isSome) ∧
        (∀ ln ∈ splitLines r, (lineNumMark ln.data).isSome)) →
        normalizeBlocks s r = (s, r)) := by
  constructor
  · intro h
    unfold normalizeBlocks
    rw [if_pos]
    rw [(everyLineHasLineNumbers_iff s).mpr h.1, (everyLineHasLineNumbers_iff r).mpr h.2]
    rfl
  · intro h
    unfold normalizeBlocks
    rw [if_neg]
    intro hb
    rw [Bool.and_eq_true] at hb
    exact h ⟨(everyLineHasLineNumbers_iff s).mp hb.1, (everyLineHasLineNumbers_iff r).mp hb.2⟩

/-- Witness for C8 at a concrete input (both blocks annotated → both
stripped; and an exactly-one-annotated input → both untouched). -/
theorem claim_C8_witness :
    normalizeBlocks "1 | a" "2 | b" = (stripLineNumbers "1 | a", stripLineNumbers "2 | b") ∧
      normalizeBlocks "1 | a" "plain" = ("1 | a", "plain") :=
  ⟨(claim_C8 "1 | a" "2 | b").1 (by decide), (claim_C8 "1 | a" "plain").2 (by decide)⟩

/-! ## C4 — the indentation-reconciliation formula -/

/-- The final-indent rule exactly as the specification words it: if the
replace line is less indented than the search base
(`relativeLevel < 0`), truncate the matched indent by the difference
(never below empty); otherwise append to the matched indent the portion
of the current indent beyond the search base's length. -/
def specFinalIndent (matchedIndent searchBaseIndent currentIndent : String) : String :=
  if currentIndent.length < searchBaseIndent.length then
    String.mk (matchedIndent.data.take
      (matchedIndent.length - (searchBaseIndent.length - currentIndent.length)))
  else
    matchedIndent ++ String.mk (currentIndent.data.drop searchBaseIndent.length)

/-- C4: each output line of the splicer is the final indent computed by
the specification's rule (from the first matched line's indent, the
first SEARCH line's indent and the line's own indent) followed by the
trimmed line content. -/
theorem claim_C4 (matchedLines searchLines replaceLines : List String) :
    indentReplace matchedLines searchLines replaceLines = replaceLines.map (fun line =>
      specFinalIndent (((matchedLines.map leadIndent).head?).getD "")
        (((searchLines.map leadIndent).head?).getD "") (leadIndent line) ++ jsTrim line) := by
  unfold indentReplace specFinalIndent
  apply List.map_congr_left
  intro line _
  set mi := ((matchedLines.map leadIndent).head?).getD "" with hmi
  set sb := ((searchLines.map leadIndent).head?).getD "" with hsb
  dsimp only
  by_cases h : (leadIndent line).length < sb.length
  · rw [if_pos (by omega : ((leadIndent line).length : ℤ) - (sb.length : ℤ) < 0), if_pos h]
    have harg : ((mi.length : ℤ) + (((leadIndent line).length : ℤ) - (sb.length : ℤ))).toNat =
        mi.length - (sb.length - (leadIndent line).length) := by omega
    rw [harg]
  · rw [if_neg (by omega : ¬ ((leadIndent line).length : ℤ) - (sb.length : ℤ) < 0), if_neg h]

/-! ## The middle-out probe order -/

theorem mem_range'_iff {s n x : ℕ} : x ∈ List.range' s n ↔ s ≤ x ∧ x < s + n := by
  rw [List.mem_range']
  constructor
  · rintro ⟨i, hi, rfl⟩
    omega
  · intro h
    exact ⟨x - s, by omega, by omega⟩

theorem pairwise_lt_range'_1 (s n : ℕ) : (List.range' s n).Pairwise (· < ·) := by
  induction n generalizing s with
  | zero => exact List.Pairwise.nil
  | succ n ih =>
    rw [List.range'_succ]
    exact List.pairwise_cons.mpr ⟨fun y hy => (mem_range'_iff.mp hy).1, ih (s + 1)⟩

theorem interleave_nil_right (l : List ℕ) : interleave l [] = l := by
  cases l <;> rfl

theorem interleave_perm (l1 l2 : List ℕ) : List.Perm (interleave l1 l2) (l1 ++ l2) := by
  induction l1 generalizing l2 with
  | nil => simp [interleave]
  | cons x xs ih =>
    cases l2 with
    | nil => simp [interleave]
    | cons y ys =>
      show List.Perm (x :: y :: interleave xs ys) (x :: (xs ++ y :: ys))
      exact (((ih ys).cons y).cons x).trans ((List.perm_middle.symm).cons x)

theorem mem_interleave {x : ℕ} {l1 l2 : List ℕ} :
    x ∈ interleave l1 l2 ↔ x ∈ l1 ∨ x ∈ l2 := by
  rw [(interleave_perm l1 l2).mem_iff, List.mem_append]

theorem probeDown_eq (ws : ℕ) : ∀ a : ℕ, probeDown ws a = (List.range' ws (a + 1 - ws)).reverse := by
  intro a
  induction a with
  | zero =>
    cases ws with
    | zero => rfl
    | succ k =>
      have : (0 + 1 - (k + 1)) = 0 := by omega
      simp [probeDown, this]
  | succ a ih =>
    by_cases h : a + 1 < ws
    · have h0 : a + 1 + 1 - ws = 0 := by omega
      simp [probeDown, if_pos h, h0]
    · have h1 : a + 1 + 1 - ws = (a + 1 - ws) + 1 := by omega
      have h2 : ws + (a + 1 - ws) = a + 1 := by omega
      rw [show probeDown ws (a + 1) = (a + 1) :: probeDown ws a from by simp [probeDown, h],
        ih, h1, List.range'_1_concat, List.reverse_append, h2]
      rfl

theorem mem_probeDown {ws a x : ℕ} : x ∈ probeDown ws a ↔ ws ≤ x ∧ x ≤ a := by
  rw [probeDown_eq, List.mem_reverse, mem_range'_iff]
  omega

theorem probeUp_nil {b : ℕ} {E : ℤ} (h : E < (b : ℤ)) : probeUp b E = [] := by
  unfold probeUp
  have h0 : (E + 1 - (b : ℤ)).toNat = 0 := by omega
  rw [h0]
  rfl

theorem probeUp_cons {b : ℕ} {E : ℤ} (h : (b : ℤ) ≤ E) : probeUp b E = b :: probeUp (b + 1) E := by
  unfold probeUp
  have h1 : (E + 1 - (b : ℤ)).toNat = (E + 1 - ((b + 1 : ℕ) : ℤ)).toNat + 1 := by
    push_cast
    omega
  rw [h1, List.range'_succ]

theorem mem_probeUp {b x : ℕ} {E : ℤ} : x ∈ probeUp b E ↔ b ≤ x ∧ (x : ℤ) ≤ E := by
  unfold probeUp
  rw [mem_range'_iff]
  omega

/-! ## Fold lemmas for the scan -/

theorem foldl_probeStep_bestScore (lines : List String) (sc : String) (slen : ℕ) :
    ∀ (l : List ℕ) (st : ScanState),
      (l.foldl (probeStep lines sc slen) st).bestMatchScore =
        l.foldl (fun b i => max b (getSimilarity (chunkAt lines i slen) sc)) st.bestMatchScore := by
  intro l
  induction l with
  | nil => intro st; rfl
  | cons x xs ih =>
    intro st
    simp only [List.foldl_cons]
    rw [ih]
    congr 1
    unfold probeStep
    dsimp only
    by_cases h : st.bestMatchScore < getSimilarity (chunkAt lines x slen) sc
    · rw [if_pos h]
      exact (max_eq_right h.le).symm
    · rw [if_neg h]
      exact (max_eq_left (not_lt.mp h)).symm

theorem foldl_probeStep_of_matchIndex_neg (lines : List String) (sc : String) (slen : ℕ) :
    ∀ (l : List ℕ) (st : ScanState),
      (l.foldl (probeStep lines sc slen) st).matchIndex = -1 →
        l.foldl (probeStep lines sc slen) st = st := by
  intro l
  induction l with
  | nil => intro st _; rfl
  | cons x xs ih =>
    intro st h
    simp only [List.foldl_cons] at h ⊢
    have hx := ih (probeStep lines sc slen st x) h
    rw [hx] at h ⊢
    unfold probeStep at h ⊢
    dsimp only at h ⊢
    by_cases hlt : st.bestMatchScore < getSimilarity (chunkAt lines x slen) sc
    · rw [if_pos hlt] at h
      exact absurd h (by simp)
    · rw [if_neg hlt]

theorem foldl_probeStep_best_mono (lines : List String) (sc : String) (slen : ℕ) :
    ∀ (l : List ℕ) (st : ScanState),
      st.bestMatchScore ≤ (l.foldl (probeStep lines sc slen) st).bestMatchScore := by
  intro l
  induction l with
  | nil => intro st; exact le_rfl
  | cons x xs ih =>
    intro st
    simp only [List.foldl_cons]
    refine le_trans ?_ (ih (probeStep lines sc slen st x))
    unfold probeStep
    dsimp only
    by_cases h : st.bestMatchScore < getSimilarity (chunkAt lines x slen) sc
    · rw [if_pos h]
      exact h.le
    · rw [if_neg h]


/-! ## The while loop of lines 167-189 equals the fold over the probe order -/

/-- The left cursor's remaining probe stream, from an arbitrary (possibly
negative) cursor position. -/
def probeDownZ (ws : ℕ) (l : ℤ) : List ℕ :=
  if h : (ws : ℤ) ≤ l then l.toNat :: probeDownZ ws (l - 1) else []
termination_by (l + 1 - (ws : ℤ)).toNat
decreasing_by omega

/-- The right cursor's remaining probe stream. -/
def probeUpZ (r E : ℤ) : List ℕ :=
  if h : r ≤ E then r.toNat :: probeUpZ (r + 1) E else []
termination_by (E + 1 - r).toNat
decreasing_by omega

theorem probeDownZ_natCast (ws : ℕ) : ∀ a : ℕ, probeDownZ ws (a : ℤ) = probeDown ws a := by
  intro a
  induction a with
  | zero =>
    rw [probeDownZ]
    cases ws with
    | zero =>
      rw [dif_pos (by omega)]
      rw [probeDownZ, dif_neg (by omega)]
      rfl
    | succ k =>
      rw [dif_neg (by omega)]
      simp [probeDown]
  | succ a ih =>
    rw [probeDownZ]
    by_cases h : a + 1 < ws
    · rw [dif_neg (by omega)]
      simp [probeDown, if_pos h]
    · rw [dif_pos (by omega)]
      have h1 : ((a + 1 : ℕ) : ℤ) - 1 = (a : ℤ) := by omega
      have h2 : ((a + 1 : ℕ) : ℤ).toNat = a + 1 := by omega
      rw [h1, h2, ih]
      simp [probeDown, h]

theorem probeUpZ_natCast : ∀ (n : ℕ) (b : ℕ) (E : ℤ), (E + 1 - (b : ℤ)).toNat = n →
    probeUpZ (b : ℤ) E = probeUp b E := by
  intro n
  induction n with
  | zero =>
    intro b E hn
    rw [probeUpZ, dif_neg (by omega), probeUp_nil (by omega)]
  | succ n ih =>
    intro b E hn
    rw [probeUpZ, dif_pos (by omega), probeUp_cons (by omega)]
    have h2 : ((b : ℤ)).toNat = b := by omega
    have h3 : (b : ℤ) + 1 = ((b + 1 : ℕ) : ℤ) := by omega
    rw [h2, h3, ih (b + 1) E (by omega)]

theorem probeDownZ_cons {ws : ℕ} {l : ℤ} (h : (ws : ℤ) ≤ l) :
    probeDownZ ws l = l.toNat :: probeDownZ ws (l - 1) := by
  rw [probeDownZ, dif_pos h]

theorem probeDownZ_nil {ws : ℕ} {l : ℤ} (h : l < (ws : ℤ)) : probeDownZ ws l = [] := by
  rw [probeDownZ, dif_neg (by omega)]

theorem probeUpZ_cons {r E : ℤ} (h : r ≤ E) : probeUpZ r E = r.toNat :: probeUpZ (r + 1) E := by
  rw [probeUpZ, dif_pos h]

theorem probeUpZ_nil {r E : ℤ} (h : E < r) : probeUpZ r E = [] := by
  rw [probeUpZ, dif_neg (by omega)]

theorem scanLoop_eq_fold (lines : List String) (sc : String) (slen ws : ℕ) (E : ℤ) :
    ∀ (n : ℕ) (left right : ℤ) (st : ScanState),
      ((left + 1 - (ws : ℤ)).toNat + (E + 1 - right).toNat) ≤ n →
      scanLoop lines sc slen ws E left right st =
        (interleave (probeDownZ ws left) (probeUpZ right E)).foldl (probeStep lines sc slen) st := by
  intro n
  induction n with
  | zero =>
    intro left right st hn
    rw [scanLoop, dif_neg (by omega), probeDownZ_nil (by omega), probeUpZ_nil (by omega)]
    rfl
  | succ n ih =>
    intro left right st hn
    by_cases hcond : (ws : ℤ) ≤ left ∨ right ≤ E
    · rw [scanLoop, dif_pos hcond]
      dsimp only
      by_cases hl : (ws : ℤ) ≤ left
      · by_cases hr : right ≤ E
        · rw [if_pos hl, if_pos hr, ih (left - 1) (right + 1) _ (by omega),
            probeDownZ_cons hl, probeUpZ_cons hr]
          rfl
        · rw [if_pos hl, if_neg hr, ih (left - 1) (right + 1) _ (by omega),
            probeDownZ_cons hl, probeUpZ_nil (by omega : E < right),
            probeUpZ_nil (by omega : E < right + 1),
            interleave_nil_right, interleave_nil_right, List.foldl_cons]
      · have hr : right ≤ E := hcond.resolve_left hl
        rw [if_neg hl, if_pos hr, ih (left - 1) (right + 1) _ (by omega),
          probeDownZ_nil (by omega : left < (ws : ℤ)),
          probeDownZ_nil (by omega : left - 1 < (ws : ℤ)), probeUpZ_cons hr]
        rfl
    · rw [scanLoop, dif_neg hcond, probeDownZ_nil (by omega), probeUpZ_nil (by omega)]
      rfl

/-- The middle-out while loop of the source (lines 161-190), started the
way `applyDiff` starts it (`leftIndex = midPoint`,
`rightIndex = midPoint + 1`), computes exactly the fold of `probeStep`
over the interleaved probe order `probeList`: the two embeddings of the
scan agree. -/
theorem runScan_eq_scanLoop (lines : List String) (sc : String) (slen ws we : ℕ)
    (st : ScanState) :
    scanLoop lines sc slen ws ((we : ℤ) - (slen : ℤ))
        (((ws + we) / 2 : ℕ) : ℤ) ((((ws + we) / 2 : ℕ) : ℤ) + 1) st =
      runScan lines sc slen ws we st := by
  rw [scanLoop_eq_fold lines sc slen ws ((we : ℤ) - (slen : ℤ))
    (((((ws + we) / 2 : ℕ) : ℤ) + 1 - (ws : ℤ)).toNat +
      (((we : ℤ) - (slen : ℤ)) + 1 - ((((ws + we) / 2 : ℕ) : ℤ) + 1)).toNat) _ _ _ le_rfl]
  unfold runScan probeList
  rw [probeDownZ_natCast]
  rw [show (((ws + we) / 2 : ℕ) : ℤ) + 1 = (((ws + we) / 2 + 1 : ℕ) : ℤ) from by omega]
  rw [probeUpZ_natCast ((((we : ℤ) - (slen : ℤ)) + 1 - (((ws + we) / 2 + 1 : ℕ) : ℤ)).toNat) _ _ rfl]

/-! ## C2 - middle-out scan vs exhaustive scan -/

/-- Modelled from the spec and claim C2: the best score an exhaustive
scan finds over all candidate windows of length `slen` lying entirely
inside the window `[ws, we)` (start indices `ws, ws + 1, …, we - slen`),
starting from the same initial best score `0`. -/
def exhaustiveBestScore (lines : List String) (searchChunk : String) (slen ws we : ℕ) : ℚ :=
  ((List.range' ws (we + 1 - slen - ws)).map
    (fun i => getSimilarity (chunkAt lines i slen) searchChunk)).foldl max 0

theorem probeList_perm (ws we slen : ℕ) (h1 : ws ≤ we) (h2 : (ws + we) / 2 + slen ≤ we) :
    List.Perm (probeList ws we slen) (List.range' ws (we + 1 - slen - ws)) := by
  unfold probeList
  have hmid : ws ≤ (ws + we) / 2 := by omega
  refine (interleave_perm _ _).trans ?_
  rw [probeDown_eq]
  have hup : probeUp ((ws + we) / 2 + 1) ((we : ℤ) - (slen : ℤ)) =
      List.range' ((ws + we) / 2 + 1) (we - slen - (ws + we) / 2) := by
    unfold probeUp
    congr 1
    omega
  rw [hup]
  refine ((List.reverse_perm _).append_right _).trans ?_
  rw [show we + 1 - slen - ws = (we - slen - (ws + we) / 2) + ((ws + we) / 2 + 1 - ws) from by omega,
    ← List.range'_append_1 ws ((ws + we) / 2 + 1 - ws) (we - slen - (ws + we) / 2),
    show ws + ((ws + we) / 2 + 1 - ws) = (ws + we) / 2 + 1 from by omega]

/-- C2 (amended): when the window midpoint still admits a full-length
candidate (`(ws + we) / 2 + slen ≤ we`), the best similarity score found
by the middle-out scan over the window `[ws, we)` equals the best score
of an exhaustive scan over all full candidate windows inside the window.
(Without that proviso the left cursor probes truncated windows past
`we - slen`, which can score higher - see the counterexample.) -/
theorem claim_C2 (lines searchLines : List String) (ws we : ℕ)
    (h1 : ws ≤ we) (h2 : (ws + we) / 2 + searchLines.length ≤ we)
    (h3 : searchLines ≠ []) :
    (runScan lines (joinWith "\n" searchLines) searchLines.length ws we
        ⟨-1, 0, ""⟩).bestMatchScore =
      exhaustiveBestScore lines (joinWith "\n" searchLines) searchLines.length ws we := by
  unfold runScan exhaustiveBestScore
  rw [foldl_probeStep_bestScore, List.foldl_map]
  exact (probeList_perm ws we searchLines.length h1 h2).foldl_eq'
    (fun x _ y _ z => by rw [max_assoc, max_comm (getSimilarity (chunkAt lines x searchLines.length) (joinWith "\n" searchLines)), ← max_assoc]) 0

/-- C2 counterexample: with a three-line document and a three-line
SEARCH block over the full-document window, the middle-out scan probes
the truncated window at index 1 and scores 3/5, while every full
candidate window inside the window scores at most 2/5 - the claimed
equivalence fails without the amendment's proviso. -/
theorem claim_C2_counterexample :
    ¬ ((runScan ["a", "b", "c"] (joinWith "\n" ["b", "c", "d"]) 3 0 3
          ⟨-1, 0, ""⟩).bestMatchScore =
        exhaustiveBestScore ["a", "b", "c"] (joinWith "\n" ["b", "c", "d"]) 3 0 3) := by
  with_unfolding_all decide

/-- Witness for C2 at a concrete input. -/
theorem claim_C2_witness :
    (0 : ℕ) ≤ 4 ∧ (0 + 4) / 2 + (["b", "x"] : List String).length ≤ 4 ∧
      (["b", "x"] : List String) ≠ [] ∧
      (runScan ["a", "b", "x", "c"] (joinWith "\n" ["b", "x"]) 2 0 4
          ⟨-1, 0, ""⟩).bestMatchScore =
        exhaustiveBestScore ["a", "b", "x", "c"] (joinWith "\n" ["b", "x"]) 2 0 4 :=
  ⟨by decide, by decide, by decide,
    claim_C2 ["a", "b", "x", "c"] ["b", "x"] 0 4 (by decide) (by decide) (by decide)⟩


/-! ## C9 - the fallback window and the hinted start index -/

/-- C9 (amended): on a hinted invocation whose exact check fails, the
fallback window still contains the original hinted range
(`ws ≤ startLine - 1` and `endLine ≤ we`), and the middle-out scan
probes a candidate starting at the hinted start index `startLine - 1`
provided a full SEARCH-length candidate starting there fits inside the
clamped window (`startLine - 1 + slen ≤ we`).  (Without that proviso the
hinted start index need not be probed - see the counterexample.) -/
theorem claim_C9 (n s e buf slen : ℕ) (hs : 1 ≤ s) (hse : s ≤ e) (hen : e ≤ n) :
    (hintWindow n s e buf).1 ≤ s - 1 ∧ e ≤ (hintWindow n s e buf).2 ∧
      (s - 1 + slen ≤ (hintWindow n s e buf).2 →
        (s - 1) ∈ probeList (hintWindow n s e buf).1 (hintWindow n s e buf).2 slen) := by
  simp only [hintWindow]
  refine ⟨by omega, by omega, ?_⟩
  intro hfit
  unfold probeList
  rw [mem_interleave]
  by_cases h : s - 1 ≤ (s - (buf + 1) + min n (e + buf)) / 2
  · left
    rw [mem_probeDown]
    omega
  · right
    rw [mem_probeUp]
    constructor
    · omega
    · omega

/-- C9 counterexample: a 10-line document, hint 10-10, a 2-line SEARCH
block: the fallback window is `[0, 10)` but the scan never probes a
candidate starting at the hinted start index 9 (the right cursor stops
at `10 - 2 = 8` and the midpoint 5 is below 9). -/
theorem claim_C9_counterexample :
    hintWindow 10 10 10 20 = (0, 10) ∧ ¬ ((10 - 1 : ℕ) ∈ probeList 0 10 2) :=
  ⟨by decide, by decide⟩

/-- Witness for C9 at a concrete input. -/
theorem claim_C9_witness :
    (1 ≤ 3 ∧ 3 ≤ 4 ∧ 4 ≤ 10) ∧
      ((hintWindow 10 3 4 2).1 ≤ 3 - 1 ∧ 4 ≤ (hintWindow 10 3 4 2).2 ∧
        (3 - 1 + 2 ≤ (hintWindow 10 3 4 2).2 →
          (3 - 1) ∈ probeList (hintWindow 10 3 4 2).1 (hintWindow 10 3 4 2).2 2)) :=
  ⟨by decide, claim_C9 10 3 4 2 2 (by decide) (by decide) (by decide)⟩

/-! ## C3 - the tie-break of the middle-out scan -/

theorem probeDown_pairwise (ws : ℕ) (mid : ℤ) (a : ℕ) (ha : (a : ℤ) ≤ mid) :
    (probeDown ws a).Pairwise
      (fun i j : ℕ => ((i : ℤ) - mid).natAbs ≤ ((j : ℤ) - mid).natAbs) := by
  rw [probeDown_eq, List.pairwise_reverse]
  refine (pairwise_lt_range'_1 ws (a + 1 - ws)).imp_of_mem ?_
  intro i j hi hj hij
  have hib := mem_range'_iff.mp hi
  have hjb := mem_range'_iff.mp hj
  omega

theorem probeUp_pairwise (mid : ℤ) {b : ℕ} {E : ℤ} (hb : mid < (b : ℤ)) :
    (probeUp b E).Pairwise
      (fun i j : ℕ => ((i : ℤ) - mid).natAbs ≤ ((j : ℤ) - mid).natAbs) := by
  unfold probeUp
  refine (pairwise_lt_range'_1 b _).imp_of_mem ?_
  intro i j hi hj hij
  have hib := mem_range'_iff.mp hi
  have hjb := mem_range'_iff.mp hj
  omega

theorem interleave_pairwise_dist (ws : ℕ) (mid : ℤ) (E : ℤ) :
    ∀ (a b : ℕ), (a : ℤ) ≤ mid → mid < (b : ℤ) → (a : ℤ) + (b : ℤ) = 2 * mid + 1 →
      (interleave (probeDown ws a) (probeUp b E)).Pairwise
        (fun i j : ℕ => ((i : ℤ) - mid).natAbs ≤ ((j : ℤ) - mid).natAbs) := by
  intro a
  induction a with
  | zero =>
    intro b ha hb hsum
    by_cases hws : ws = 0
    · subst hws
      rw [show probeDown 0 0 = [0] from rfl]
      by_cases hE : (b : ℤ) ≤ E
      · rw [probeUp_cons hE,
          show interleave [0] (b :: probeUp (b + 1) E) = 0 :: b :: probeUp (b + 1) E from rfl,
          List.pairwise_cons, List.pairwise_cons]
        refine ⟨?_, ?_, probeUp_pairwise mid (by omega)⟩
        · intro z hz
          rcases List.mem_cons.mp hz with rfl | hz'
          · omega
          · have := mem_probeUp.mp hz'
            omega
        · intro z hz
          have := mem_probeUp.mp hz
          omega
      · rw [probeUp_nil (by omega), interleave_nil_right]
        exact List.pairwise_singleton _ _
    · rw [show probeDown ws 0 = [] from by simp [probeDown, hws],
        show interleave [] (probeUp b E) = probeUp b E from rfl]
      exact probeUp_pairwise mid hb
  | succ a ih =>
    intro b ha hb hsum
    by_cases hlt : a + 1 < ws
    · rw [show probeDown ws (a + 1) = [] from by simp [probeDown, hlt],
        show interleave [] (probeUp b E) = probeUp b E from rfl]
      exact probeUp_pairwise mid hb
    · by_cases hE : (b : ℤ) ≤ E
      · rw [show probeDown ws (a + 1) = (a + 1) :: probeDown ws a from by simp [probeDown, hlt],
          probeUp_cons hE,
          show interleave ((a + 1) :: probeDown ws a) (b :: probeUp (b + 1) E) =
            (a + 1) :: b :: interleave (probeDown ws a) (probeUp (b + 1) E) from rfl,
          List.pairwise_cons, List.pairwise_cons]
        refine ⟨?_, ?_, ?_⟩
        · intro z hz
          rcases List.mem_cons.mp hz with rfl | hz'
          · omega
          · rcases mem_interleave.mp hz' with hzd | hzu
            · have := mem_probeDown.mp hzd
              omega
            · have := mem_probeUp.mp hzu
              omega
        · intro z hz
          rcases mem_interleave.mp hz with hzd | hzu
          · have := mem_probeDown.mp hzd
            omega
          · have := mem_probeUp.mp hzu
            omega
        · exact ih (b + 1) (by omega) (by push_cast; omega) (by push_cast at hsum ⊢; omega)
      · rw [probeUp_nil (by omega), interleave_nil_right]
        exact probeDown_pairwise ws mid (a + 1) ha


theorem probeList_pairwise (ws we slen : ℕ) :
    (probeList ws we slen).Pairwise
      (fun i j : ℕ => ((i : ℤ) - (((ws + we) / 2 : ℕ) : ℤ)).natAbs ≤
        ((j : ℤ) - (((ws + we) / 2 : ℕ) : ℤ)).natAbs) := by
  unfold probeList
  exact interleave_pairwise_dist ws (((ws + we) / 2 : ℕ) : ℤ) ((we : ℤ) - (slen : ℤ))
    ((ws + we) / 2) ((ws + we) / 2 + 1) le_rfl (by push_cast; omega) (by push_cast; omega)

/-- The running best of the strict-improvement fold: the final state
either is the initial state (no probe strictly improved on it), or
records the first probe attaining the final best score; and whenever the
final best is positive, the recorded match index is at least as close to
`mid` as every probe attaining the final best score, provided the probes
come in nondecreasing distance from `mid` and the initial match index
already satisfies the same bound. -/
theorem foldl_probeStep_tiebreak (lines : List String) (sc : String) (slen : ℕ) (mid : ℤ) :
    ∀ (l : List ℕ) (st : ScanState),
      l.Pairwise (fun i j : ℕ => ((i : ℤ) - mid).natAbs ≤ ((j : ℤ) - mid).natAbs) →
      (∀ j ∈ l, 0 < st.bestMatchScore →
        (st.matchIndex - mid).natAbs ≤ ((j : ℤ) - mid).natAbs) →
      (((l.foldl (probeStep lines sc slen) st).matchIndex = st.matchIndex ∧
          (l.foldl (probeStep lines sc slen) st).bestMatchScore = st.bestMatchScore) ∨
        (∃ j ∈ l, (l.foldl (probeStep lines sc slen) st).matchIndex = (j : ℤ) ∧
          getSimilarity (chunkAt lines j slen) sc =
            (l.foldl (probeStep lines sc slen) st).bestMatchScore ∧
          st.bestMatchScore < (l.foldl (probeStep lines sc slen) st).bestMatchScore)) ∧
      (0 < (l.foldl (probeStep lines sc slen) st).bestMatchScore →
        ∀ j ∈ l, getSimilarity (chunkAt lines j slen) sc =
            (l.foldl (probeStep lines sc slen) st).bestMatchScore →
          ((l.foldl (probeStep lines sc slen) st).matchIndex - mid).natAbs ≤
            ((j : ℤ) - mid).natAbs) := by
  intro l
  induction l with
  | nil =>
    intro st _ _
    exact ⟨Or.inl ⟨rfl, rfl⟩, fun _ j hj _ => absurd hj (List.not_mem_nil j)⟩
  | cons x xs ih =>
    intro st hpair hprev
    rw [List.pairwise_cons] at hpair
    obtain ⟨hx, hxs⟩ := hpair
    simp only [List.foldl_cons]
    by_cases himp : st.bestMatchScore < getSimilarity (chunkAt lines x slen) sc
    · have hstdef : probeStep lines sc slen st x =
          ⟨(x : ℤ), getSimilarity (chunkAt lines x slen) sc, chunkAt lines x slen⟩ := by
        unfold probeStep
        dsimp only
        rw [if_pos himp]
      have hprev' : ∀ j ∈ xs, 0 < (probeStep lines sc slen st x).bestMatchScore →
          ((probeStep lines sc slen st x).matchIndex - mid).natAbs ≤ ((j : ℤ) - mid).natAbs := by
        intro j hj _
        rw [hstdef]
        exact hx j hj
      obtain ⟨hc2, hc3⟩ := ih (probeStep lines sc slen st x) hxs hprev'
      constructor
      · right
        rcases hc2 with ⟨hm, hb⟩ | ⟨j, hj, hm, hsc, hlt⟩
        · refine ⟨x, List.mem_cons_self x xs, ?_, ?_, ?_⟩
          · rw [hm, hstdef]
          · rw [hb, hstdef]
          · rw [hb, hstdef]
            exact himp
        · refine ⟨j, List.mem_cons_of_mem x hj, hm, hsc, ?_⟩
          have hsb : (probeStep lines sc slen st x).bestMatchScore =
              getSimilarity (chunkAt lines x slen) sc := by rw [hstdef]
          refine lt_trans ?_ hlt
          rw [hsb]
          exact himp
      · intro hpos j hj hscore
        rcases List.mem_cons.mp hj with heq | hj'
        · subst heq
          rcases hc2 with ⟨hm, hb⟩ | ⟨j', hj', hm, hsc, hlt⟩
          · rw [hm, hstdef]
          · exfalso
            have hsb : (probeStep lines sc slen st j).bestMatchScore =
                getSimilarity (chunkAt lines j slen) sc := by rw [hstdef]
            rw [hsb, hscore] at hlt
            exact absurd hlt (lt_irrefl _)
        · exact hc3 hpos j hj' hscore
    · have hsteq : probeStep lines sc slen st x = st := by
        unfold probeStep
        dsimp only
        rw [if_neg himp]
      rw [hsteq]
      have hprev' : ∀ j ∈ xs, 0 < st.bestMatchScore →
          (st.matchIndex - mid).natAbs ≤ ((j : ℤ) - mid).natAbs :=
        fun j hj => hprev j (List.mem_cons_of_mem x hj)
      obtain ⟨hc2, hc3⟩ := ih st hxs hprev'
      constructor
      · rcases hc2 with h1 | ⟨j, hj, hrest⟩
        · exact Or.inl h1
        · exact Or.inr ⟨j, List.mem_cons_of_mem x hj, hrest⟩
      · intro hpos j hj hscore
        rcases List.mem_cons.mp hj with heq | hj'
        · subst heq
          have hmono := foldl_probeStep_best_mono lines sc slen xs st
          have hle : getSimilarity (chunkAt lines j slen) sc ≤ st.bestMatchScore :=
            not_lt.mp himp
          have hbeq : st.bestMatchScore =
              (xs.foldl (probeStep lines sc slen) st).bestMatchScore := by
            rw [hscore] at hle
            exact le_antisymm hmono hle
          rcases hc2 with ⟨hm, _⟩ | ⟨j', _, _, _, hlt⟩
          · rw [hm]
            exact hprev j (List.mem_cons_self j xs) (hbeq ▸ hpos)
          · exfalso
            rw [← hbeq] at hlt
            exact absurd hlt (lt_irrefl _)
        · exact hc3 hpos j hj' hscore

/-- C3 (amended): whenever several probed candidate windows achieve the
final best similarity score (and a candidate was selected at all), the
middle-out scan's selected index is at least as close to the **window
midpoint** `⌊(ws + we) / 2⌋` as any best-scoring probe.  The original
claim measured closeness to the hinted location; the window midpoint of
the buffered fallback window generally differs from the hinted start,
and the scan's tie-break favours the midpoint, not the hint (see the
counterexample). -/
theorem claim_C3 (lines searchLines : List String) (ws we j : ℕ)
    (hbest : 0 < (runScan lines (joinWith "\n" searchLines) searchLines.length ws we
        ⟨-1, 0, ""⟩).bestMatchScore)
    (hj : j ∈ probeList ws we searchLines.length)
    (hscore : getSimilarity (chunkAt lines j searchLines.length) (joinWith "\n" searchLines) =
      (runScan lines (joinWith "\n" searchLines) searchLines.length ws we
        ⟨-1, 0, ""⟩).bestMatchScore) :
    ((runScan lines (joinWith "\n" searchLines) searchLines.length ws we
        ⟨-1, 0, ""⟩).matchIndex - (((ws + we) / 2 : ℕ) : ℤ)).natAbs ≤
      ((j : ℤ) - (((ws + we) / 2 : ℕ) : ℤ)).natAbs := by
  unfold runScan at hbest hscore ⊢
  exact (foldl_probeStep_tiebreak lines (joinWith "\n" searchLines) searchLines.length
    (((ws + we) / 2 : ℕ) : ℤ) (probeList ws we searchLines.length) ⟨-1, 0, ""⟩
    (probeList_pairwise ws we searchLines.length)
    (fun j' _ hpos => absurd hpos (lt_irrefl 0))).2 hbest j hj hscore

set_option maxRecDepth 8000 in
/-- C3 counterexample: a 21-line document (`"x"` at 0-based indices 2
and 18, `"q"` elsewhere), hint 1-1, threshold 1, buffer 20.  The hinted
exact check fails, the fallback window is the whole document with
midpoint 10, and both `"x"` candidates score 1.  The claim says the
candidate closest to the hinted location (index 2, distance 2 from the
hint) wins; the code selects index 18 (equidistant from the midpoint but
probed first), so the replacement lands on line 19, not line 3. -/
theorem claim_C3_counterexample :
    applyDiffCore "q\nq\nx\nq\nq\nq\nq\nq\nq\nq\nq\nq\nq\nq\nq\nq\nq\nq\nx\nq\nq" "x" "y"
        (some 1) (some 1) 1 20 =
      DiffResult.success "q\nq\nx\nq\nq\nq\nq\nq\nq\nq\nq\nq\nq\nq\nq\nq\nq\nq\ny\nq\nq" ∧
      DiffResult.success "q\nq\nx\nq\nq\nq\nq\nq\nq\nq\nq\nq\nq\nq\nq\nq\nq\nq\ny\nq\nq" ≠
        DiffResult.success "q\nq\ny\nq\nq\nq\nq\nq\nq\nq\nq\nq\nq\nq\nq\nq\nq\nq\nx\nq\nq" := by
  constructor
  · with_unfolding_all decide
  · decide

/-- Witness for C3 at a concrete input. -/
theorem claim_C3_witness :
    0 < (runScan ["a", "b"] (joinWith "\n" ["b"]) 1 0 2 ⟨-1, 0, ""⟩).bestMatchScore ∧
      (1 : ℕ) ∈ probeList 0 2 1 ∧
      getSimilarity (chunkAt ["a", "b"] 1 1) (joinWith "\n" ["b"]) =
        (runScan ["a", "b"] (joinWith "\n" ["b"]) 1 0 2 ⟨-1, 0, ""⟩).bestMatchScore ∧
      ((runScan ["a", "b"] (joinWith "\n" ["b"]) 1 0 2 ⟨-1, 0, ""⟩).matchIndex -
          (((0 + 2) / 2 : ℕ) : ℤ)).natAbs ≤ ((1 : ℤ) - (((0 + 2) / 2 : ℕ) : ℤ)).natAbs :=
  ⟨by with_unfolding_all decide, by decide, by with_unfolding_all decide,
    claim_C3 ["a", "b"] ["b"] 0 2 1 (by with_unfolding_all decide) (by decide)
      (by with_unfolding_all decide)⟩


/-! ## C5 - the exact failure surface of applyDiff -/

theorem matchPhase_inr_matchIndex_neg (ol sl : List String) (s e : Option ℕ)
    (thr : ℚ) (buf : ℕ) (st : ScanState)
    (h : matchPhase ol sl s e thr buf = Sum.inr st) (hm : st.matchIndex = -1) :
    st.bestMatchScore = 0 := by
  unfold matchPhase at h
  dsimp only at h
  by_cases hg : (hintGiven s && hintGiven e) = true
  · rw [if_pos hg] at h
    by_cases hb : ol.length ≤ e.getD 0 - 1 ∨ e.getD 0 - 1 < s.getD 0 - 1
    · rw [if_pos hb] at h
      exact absurd h (by simp)
    · rw [if_neg hb] at h
      by_cases hs : thr ≤ getSimilarity (chunkAt ol (s.getD 0 - 1) (e.getD 0 + 1 - s.getD 0))
          (joinWith "\n" sl)
      · rw [if_pos hs] at h
        simp only [Sum.inr.injEq] at h
        subst h
        rw [Bool.and_eq_true] at hg
        have hs1 : s.getD 0 ≠ 0 := by
          have := hg.1
          unfold hintGiven at this
          simpa using this
        dsimp only at hm
        omega
      · rw [if_neg hs] at h
        simp only [Sum.inr.injEq] at h
        subst h
        unfold runScan at hm ⊢
        rw [foldl_probeStep_of_matchIndex_neg _ _ _ _ _ hm]
  · rw [if_neg hg] at h
    simp only [Sum.inr.injEq] at h
    subst h
    unfold runScan at hm ⊢
    rw [foldl_probeStep_of_matchIndex_neg _ _ _ _ _ hm]

theorem matchPhase_inl_iff (ol sl : List String) (s e : Option ℕ) (thr : ℚ) (buf : ℕ) :
    (∃ p, matchPhase ol sl s e thr buf = Sum.inl p) ↔
      (hintGiven s = true ∧ hintGiven e = true ∧
        (ol.length ≤ e.getD 0 - 1 ∨ e.getD 0 - 1 < s.getD 0 - 1)) := by
  unfold matchPhase
  dsimp only
  by_cases hg : (hintGiven s && hintGiven e) = true
  · rw [if_pos hg]
    rw [Bool.and_eq_true] at hg
    by_cases hb : ol.length ≤ e.getD 0 - 1 ∨ e.getD 0 - 1 < s.getD 0 - 1
    · rw [if_pos hb]
      exact ⟨fun _ => ⟨hg.1, hg.2, hb⟩, fun _ => ⟨_, rfl⟩⟩
    · rw [if_neg hb]
      constructor
      · rintro ⟨p, hp⟩
        by_cases hs : thr ≤ getSimilarity (chunkAt ol (s.getD 0 - 1) (e.getD 0 + 1 - s.getD 0))
            (joinWith "\n" sl)
        · rw [if_pos hs] at hp
          exact absurd hp (by simp)
        · rw [if_neg hs] at hp
          exact absurd hp (by simp)
      · intro hcon
        exact absurd hcon.2.2 hb
  · rw [if_neg hg]
    constructor
    · rintro ⟨p, hp⟩
      exact absurd hp (by simp)
    · intro hcon
      rw [Bool.and_eq_true] at hg
      exact absurd ⟨hcon.1, hcon.2.1⟩ hg

/-- The failure surface of the core (after marker parsing), as an exact
characterization: with a positive threshold, the core returns a failure
precisely on an inconsistent empty search, an out-of-bounds or inverted
hinted range, or a best match below the threshold. -/
theorem applyDiffCore_failure_iff (orig sc rc : String) (s e : Option ℕ)
    (thr : ℚ) (buf : ℕ) (hthr : 0 < thr) :
    (∃ err, applyDiffCore orig sc rc s e thr buf = DiffResult.failure err) ↔
      ((blockLines (normalizeBlocks sc rc).1 = [] ∧ ¬ hintGiven s = true) ∨
       (blockLines (normalizeBlocks sc rc).1 = [] ∧ hintGiven s = true ∧ hintGiven e = true ∧
         s.getD 0 ≠ e.getD 0) ∨
       (hintGiven s = true ∧ hintGiven e = true ∧
         ((splitLines orig).length ≤ e.getD 0 - 1 ∨ e.getD 0 - 1 < s.getD 0 - 1)) ∨
       (∃ st, matchPhase (splitLines orig) (blockLines (normalizeBlocks sc rc).1) s e thr buf =
           Sum.inr st ∧ st.bestMatchScore < thr)) := by
  unfold applyDiffCore
  dsimp only
  by_cases h1 : ((blockLines (normalizeBlocks sc rc).1).isEmpty && !hintGiven s) = true
  · rw [if_pos h1]
    simp only [Bool.and_eq_true, Bool.not_eq_true', List.isEmpty_iff] at h1
    constructor
    · intro _
      exact Or.inl ⟨h1.1, by simp [h1.2]⟩
    · intro _
      exact ⟨_, rfl⟩
  · rw [if_neg h1]
    by_cases h2 : ((blockLines (normalizeBlocks sc rc).1).isEmpty && hintGiven s && hintGiven e &&
        decide (s.getD 0 ≠ e.getD 0)) = true
    · rw [if_pos h2]
      simp only [Bool.and_eq_true, List.isEmpty_iff, decide_eq_true_eq] at h2
      constructor
      · intro _
        exact Or.inr (Or.inl ⟨h2.1.1.1, h2.1.1.2, h2.1.2, h2.2⟩)
      · intro _
        exact ⟨_, rfl⟩
    · rw [if_neg h2]
      simp only [Bool.and_eq_true, Bool.not_eq_true', List.isEmpty_iff, decide_eq_true_eq,
        not_and, Bool.not_eq_true] at h1 h2
      rcases hmp : matchPhase (splitLines orig) (blockLines (normalizeBlocks sc rc).1) s e thr buf
        with p | st
      · dsimp only
        constructor
        · intro _
          exact Or.inr (Or.inr (Or.inl ((matchPhase_inl_iff _ _ _ _ thr buf).mp ⟨p, hmp⟩)))
        · intro _
          exact ⟨_, rfl⟩
      · dsimp only
        by_cases h3 : st.matchIndex = -1 ∨ st.bestMatchScore < thr
        · rw [if_pos h3]
          have hlow : st.bestMatchScore < thr := by
            rcases h3 with hm | hb
            · rw [matchPhase_inr_matchIndex_neg _ _ _ _ _ _ _ hmp hm]
              exact hthr
            · exact hb
          constructor
          · intro _
            exact Or.inr (Or.inr (Or.inr ⟨st, rfl, hlow⟩))
          · intro _
            exact ⟨_, rfl⟩
        · rw [if_neg h3]
          constructor
          · rintro ⟨err, herr⟩
            exact absurd herr (by simp)
          · intro hcon
            rcases hcon with ⟨hempty, hnos⟩ | ⟨hempty, hgs, hge, hne⟩ | hbad | ⟨st', hst', hlow⟩
            · rcases Bool.eq_false_or_eq_true (hintGiven s) with hb | hb
              · exact (hnos hb).elim
              · exact ((h1 hempty) hb).elim
            · exact absurd hne (h2 ⟨⟨hempty, hgs⟩, hge⟩)
            · have := (matchPhase_inl_iff (splitLines orig)
                (blockLines (normalizeBlocks sc rc).1) s e thr buf).mpr hbad
              rcases this with ⟨p, hp⟩
              rw [hmp] at hp
              exact absurd hp (by simp)
            · simp only [Sum.inr.injEq] at hst'
              subst hst'
              exact absurd (Or.inr hlow) h3


theorem hintGiven_true_iff (h : Option ℕ) : hintGiven h = true ↔ h.getD 0 ≠ 0 := by
  unfold hintGiven
  simp

theorem badRange_iff (n : ℕ) (s e : Option ℕ) (hgs : hintGiven s = true)
    (hge : hintGiven e = true) :
    (n ≤ e.getD 0 - 1 ∨ e.getD 0 - 1 < s.getD 0 - 1) ↔
      (n < e.getD 0 ∨ e.getD 0 < s.getD 0) := by
  have h1 : s.getD 0 ≠ 0 := (hintGiven_true_iff s).mp hgs
  have h2 : e.getD 0 ≠ 0 := (hintGiven_true_iff e).mp hge
  omega

/-- Modelled from the spec and claim C5: the exact enumeration of the
failure cases — malformed SEARCH/REPLACE markers; empty SEARCH with no
start hint; empty SEARCH with both hints given and differing; both hints
given with the range out of document bounds or start greater than end;
best candidate score below the threshold. -/
def specFailureCondition (originalContent diffContent : String) (startLine endLine : Option ℕ)
    (fuzzyThreshold : ℚ) (bufferLines : ℕ) : Prop :=
  parseDiff diffContent = none ∨
  ∃ sc rc, parseDiff diffContent = some (sc, rc) ∧
    ((blockLines (normalizeBlocks sc rc).1 = [] ∧ ¬ hintGiven startLine = true) ∨
     (blockLines (normalizeBlocks sc rc).1 = [] ∧ hintGiven startLine = true ∧
       hintGiven endLine = true ∧ startLine.getD 0 ≠ endLine.getD 0) ∨
     (hintGiven startLine = true ∧ hintGiven endLine = true ∧
       ((splitLines originalContent).length < endLine.getD 0 ∨
         endLine.getD 0 < startLine.getD 0)) ∨
     (∃ st, matchPhase (splitLines originalContent) (blockLines (normalizeBlocks sc rc).1)
         startLine endLine fuzzyThreshold bufferLines = Sum.inr st ∧
       st.bestMatchScore < fuzzyThreshold))

/-- C5: the embedded `applyDiff` is a total function (it never throws),
and with a positive threshold it returns a structured failure exactly in
the claimed cases: malformed markers, inconsistent empty-search/hint
combinations, an out-of-bounds or inverted hinted range, or a best
candidate score below the threshold; in every other case it returns
success carrying the final content. -/
theorem claim_C5 (originalContent diffContent : String) (startLine endLine : Option ℕ)
    (fuzzyThreshold : ℚ) (bufferLines : ℕ) (hthr : 0 < fuzzyThreshold) :
    (∃ err, applyDiff originalContent diffContent startLine endLine fuzzyThreshold bufferLines =
        DiffResult.failure err) ↔
      specFailureCondition originalContent diffContent startLine endLine
        fuzzyThreshold bufferLines := by
  unfold applyDiff specFailureCondition
  rcases hp : parseDiff diffContent with _ | sr
  · dsimp only
    exact ⟨fun _ => Or.inl rfl, fun _ => ⟨_, rfl⟩⟩
  · dsimp only
    rw [applyDiffCore_failure_iff originalContent sr.1 sr.2 startLine endLine
      fuzzyThreshold bufferLines hthr]
    constructor
    · intro hcore
      refine Or.inr ⟨sr.1, sr.2, rfl, ?_⟩
      rcases hcore with h | h | ⟨hgs, hge, hb⟩ | h
      · exact Or.inl h
      · exact Or.inr (Or.inl h)
      · exact Or.inr (Or.inr (Or.inl
          ⟨hgs, hge, (badRange_iff _ _ _ hgs hge).mp hb⟩))
      · exact Or.inr (Or.inr (Or.inr h))
    · rintro (hnone | ⟨sc, rc, hsome, hrest⟩)
      · exact absurd hnone (by simp)
      · simp only [Option.some.injEq] at hsome
        subst hsome
        rcases hrest with h | h | ⟨hgs, hge, hb⟩ | h
        · exact Or.inl h
        · exact Or.inr (Or.inl h)
        · exact Or.inr (Or.inr (Or.inl
            ⟨hgs, hge, (badRange_iff _ _ _ hgs hge).mpr hb⟩))
        · exact Or.inr (Or.inr (Or.inr h))

/-- Witness for C5 at a concrete input. -/
theorem claim_C5_witness :
    (0 : ℚ) < 1 ∧
      ((∃ err, applyDiff "a" "no markers" none none 1 20 = DiffResult.failure err) ↔
        specFailureCondition "a" "no markers" none none 1 20) :=
  ⟨by decide, claim_C5 "a" "no markers" none none 1 20 (by decide)⟩


/-! ## C10 - the frame property of a successful splice -/

/-- C10: every successful `applyDiffCore` output is exactly the original
lines before the match index, then the indentation-adjusted REPLACE
lines, then the original lines from `matchIndex + searchLineCount`
onward, joined with the document's line ending: lines outside the
matched region pass through unchanged and in order. -/
theorem claim_C10 (orig sc rc : String) (s e : Option ℕ) (thr : ℚ) (buf : ℕ) (c : String)
    (h : applyDiffCore orig sc rc s e thr buf = DiffResult.success c) :
    ∃ st : ScanState,
      matchPhase (splitLines orig) (blockLines (normalizeBlocks sc rc).1) s e thr buf =
        Sum.inr st ∧
      st.matchIndex ≠ -1 ∧
      c = joinWith (detectEnding orig)
        ((splitLines orig).take st.matchIndex.toNat ++
          indentReplace (((splitLines orig).drop st.matchIndex.toNat).take
              (blockLines (normalizeBlocks sc rc).1).length)
            (blockLines (normalizeBlocks sc rc).1) (blockLines (normalizeBlocks sc rc).2) ++
          (splitLines orig).drop (st.matchIndex.toNat +
            (blockLines (normalizeBlocks sc rc).1).length)) := by
  unfold applyDiffCore at h
  dsimp only at h
  by_cases h1 : ((blockLines (normalizeBlocks sc rc).1).isEmpty && !hintGiven s) = true
  · rw [if_pos h1] at h
    exact absurd h (by simp)
  · rw [if_neg h1] at h
    by_cases h2 : ((blockLines (normalizeBlocks sc rc).1).isEmpty && hintGiven s &&
        hintGiven e && decide (s.getD 0 ≠ e.getD 0)) = true
    · rw [if_pos h2] at h
      exact absurd h (by simp)
    · rw [if_neg h2] at h
      rcases hmp : matchPhase (splitLines orig) (blockLines (normalizeBlocks sc rc).1)
          s e thr buf with p | st
      · rw [hmp] at h
        dsimp only at h
        exact absurd h (by simp)
      · rw [hmp] at h
        dsimp only at h
        by_cases h3 : st.matchIndex = -1 ∨ st.bestMatchScore < thr
        · rw [if_pos h3] at h
          exact absurd h (by simp)
        · rw [if_neg h3] at h
          simp only [DiffResult.success.injEq] at h
          exact ⟨st, rfl, fun hc => h3 (Or.inl hc), h.symm⟩

/-- Witness for C10 at a concrete input. -/
theorem claim_C10_witness :
    ∃ st : ScanState,
      matchPhase (splitLines "a\nb") (blockLines (normalizeBlocks "b" "c").1)
          none none 1 20 = Sum.inr st ∧
      st.matchIndex ≠ -1 ∧
      "a\nc" = joinWith (detectEnding "a\nb")
        ((splitLines "a\nb").take st.matchIndex.toNat ++
          indentReplace (((splitLines "a\nb").drop st.matchIndex.toNat).take
              (blockLines (normalizeBlocks "b" "c").1).length)
            (blockLines (normalizeBlocks "b" "c").1) (blockLines (normalizeBlocks "b" "c").2) ++
          (splitLines "a\nb").drop (st.matchIndex.toNat +
            (blockLines (normalizeBlocks "b" "c").1).length)) :=
  claim_C10 "a\nb" "b" "c" none none 1 20 "a\nc" (by with_unfolding_all decide)


/-! ## C7 - empty SEARCH as pure insertion -/

theorem getSimilarity_empty_search (s : String) : getSimilarity s "" = 1 := by
  unfold getSimilarity
  rw [if_pos rfl]

/-- C7 counterexample: the claim's hint-consistency rules allow a
start hint with no end hint, but then the hinted fast path (which needs
both hints) is skipped and the scan inserts at the **document midpoint**
with a zero-length search, not at `startLine - 1`: with startLine 1 on a
six-line document the replacement is inserted before line 4, not
before line 1. -/
theorem claim_C7_counterexample :
    applyDiffCore "a\nb\nc\nd\ne\nf" "" "X" (some 1) none 1 20 =
        DiffResult.success "a\nb\nc\nX\nd\ne\nf" ∧
      DiffResult.success ("a\nb\nc\nX\nd\ne\nf" : String) ≠
        DiffResult.success "X\na\nb\nc\nd\ne\nf" := by
  constructor
  · with_unfolding_all decide
  · decide

/-- C7 (amended): for every document and patch whose SEARCH block is
empty, when **both** hints are given with `startLine = endLine`, the
line within bounds, and the threshold at most 1, the matcher performs a
zero-length match at index `startLine - 1` with similarity 1 (the empty
search chunk scores 1 against anything, bypassing scoring), and the core
returns success with the indentation-adjusted REPLACE lines inserted
before original line `startLine` and no original line removed. -/
theorem claim_C7 (orig rc : String) (s : ℕ) (thr : ℚ) (buf : ℕ)
    (hs : 1 ≤ s) (hn : s ≤ (splitLines orig).length) (hthr : thr ≤ 1) :
    matchPhase (splitLines orig) [] (some s) (some s) thr buf =
        Sum.inr ⟨(s : ℤ) - 1, 1, chunkAt (splitLines orig) (s - 1) 1⟩ ∧
      applyDiffCore orig "" rc (some s) (some s) thr buf =
        DiffResult.success (joinWith (detectEnding orig)
          ((splitLines orig).take (s - 1) ++
            indentReplace [] [] (blockLines rc) ++
            (splitLines orig).drop (s - 1))) := by
  have hg : hintGiven (some s) = true := by
    rw [hintGiven_true_iff]
    simpa using (by omega : s ≠ 0)
  have hmp : matchPhase (splitLines orig) [] (some s) (some s) thr buf =
      Sum.inr ⟨(s : ℤ) - 1, 1, chunkAt (splitLines orig) (s - 1) 1⟩ := by
    unfold matchPhase
    dsimp only
    rw [hg]
    simp only [Bool.and_self, if_true, Option.getD_some]
    rw [if_neg (by omega : ¬ ((splitLines orig).length ≤ s - 1 ∨ s - 1 < s - 1))]
    have hchunk1 : s + 1 - s = 1 := by omega
    rw [hchunk1]
    rw [show joinWith "\n" ([] : List String) = "" from rfl, getSimilarity_empty_search]
    rw [if_pos hthr]
  refine ⟨hmp, ?_⟩
  have hnb : normalizeBlocks "" rc = ("", rc) := by
    unfold normalizeBlocks
    rw [show everyLineHasLineNumbers "" = false from by decide, Bool.false_and, if_neg (by simp)]
  unfold applyDiffCore
  dsimp only
  rw [hnb]
  dsimp only
  rw [show blockLines "" = [] from rfl]
  rw [show (([] : List String).isEmpty && !hintGiven (some s)) = false from by rw [hg]; rfl]
  rw [if_neg (by simp)]
  rw [show (([] : List String).isEmpty && hintGiven (some s) && hintGiven (some s) &&
      decide ((some s).getD 0 ≠ (some s).getD 0)) = false from by simp]
  rw [if_neg (by simp)]
  rw [hmp]
  dsimp only
  rw [if_neg (by
    rintro (hm | hb)
    · omega
    · exact absurd (lt_of_le_of_lt hthr hb) (lt_irrefl thr))]
  have htn : ((s : ℤ) - 1).toNat = s - 1 := by omega
  rw [htn]
  simp


/-- Witness for C7 at a concrete input. -/
theorem claim_C7_witness :
    (1 ≤ 2 ∧ 2 ≤ (splitLines "a\nb").length ∧ (1 : ℚ) ≤ 1) ∧
      (matchPhase (splitLines "a\nb") [] (some 2) (some 2) 1 20 =
          Sum.inr ⟨(2 : ℤ) - 1, 1, chunkAt (splitLines "a\nb") (2 - 1) 1⟩ ∧
        applyDiffCore "a\nb" "" "X" (some 2) (some 2) 1 20 =
          DiffResult.success (joinWith (detectEnding "a\nb")
            ((splitLines "a\nb").take (2 - 1) ++
              indentReplace [] [] (blockLines "X") ++
              (splitLines "a\nb").drop (2 - 1)))) :=
  ⟨⟨by decide, by decide, by decide⟩, claim_C7 "a\nb" "X" 2 1 20 (by decide) (by decide) (by decide)⟩

/-! ## C1 - the round trip on exact hints -/

/-- C1 counterexample: the result is **not** "the replacement inside R":
the splicer rewrites each replace line's indentation and trims it.  With
document `"  a"`, SEARCH = the extracted range `"  a"` (lines 1-1) and
REPLACE = `"\tx"`, the claim predicts final content `"\tx"`, but the
code produces `" x"` (the tab indent is re-anchored onto the matched
two-space indent, truncated by the relative level). -/
theorem claim_C1_counterexample :
    applyDiffCore "  a" "  a" "\tx" (some 1) (some 1) 1 20 =
        DiffResult.success " x" ∧
      DiffResult.success (" x" : String) ≠ DiffResult.success "\tx" := by
  constructor
  · with_unfolding_all decide
  · decide

/-- C1 (amended): for every document `D` and 1-based inclusive range
`[s, e]` valid in `D`, if the SEARCH block is exactly `D`'s lines
extracted at the range (joined by `"\n"`, re-splitting to those lines,
and non-empty), and the blocks are not both fully line-number-annotated,
then applying the patch with threshold 1 and the exact hint succeeds,
and the result is `D`'s lines before the range, then the
**indentation-adjusted** REPLACE lines, then `D`'s lines after the
range, joined with `D`'s line ending. -/
theorem claim_C1 (orig replaceContent : String) (s e : ℕ) (buf : ℕ)
    (hs : 1 ≤ s) (hse : s ≤ e) (he : e ≤ (splitLines orig).length)
    (hround : splitLines (joinWith "\n" (((splitLines orig).drop (s - 1)).take (e + 1 - s))) =
      ((splitLines orig).drop (s - 1)).take (e + 1 - s))
    (hne : joinWith "\n" (((splitLines orig).drop (s - 1)).take (e + 1 - s)) ≠ "")
    (hann : ¬ (everyLineHasLineNumbers
          (joinWith "\n" (((splitLines orig).drop (s - 1)).take (e + 1 - s))) = true ∧
        everyLineHasLineNumbers replaceContent = true)) :
    applyDiffCore orig (joinWith "\n" (((splitLines orig).drop (s - 1)).take (e + 1 - s)))
        replaceContent (some s) (some e) 1 buf =
      DiffResult.success (joinWith (detectEnding orig)
        ((splitLines orig).take (s - 1) ++
          indentReplace (((splitLines orig).drop (s - 1)).take (e + 1 - s))
            (((splitLines orig).drop (s - 1)).take (e + 1 - s))
            (blockLines replaceContent) ++
          (splitLines orig).drop e)) := by
  have hg : hintGiven (some s) = true := by
    rw [hintGiven_true_iff]
    simpa using (by omega : s ≠ 0)
  have hge : hintGiven (some e) = true := by
    rw [hintGiven_true_iff]
    simpa using (by omega : e ≠ 0)
  have hlen : (((splitLines orig).drop (s - 1)).take (e + 1 - s)).length = e + 1 - s := by
    rw [List.length_take, List.length_drop]
    omega
  have hnb : normalizeBlocks
      (joinWith "\n" (((splitLines orig).drop (s - 1)).take (e + 1 - s))) replaceContent =
      (joinWith "\n" (((splitLines orig).drop (s - 1)).take (e + 1 - s)), replaceContent) := by
    unfold normalizeBlocks
    rw [if_neg]
    rw [Bool.and_eq_true]
    exact hann
  have hbl : blockLines (joinWith "\n" (((splitLines orig).drop (s - 1)).take (e + 1 - s))) =
      ((splitLines orig).drop (s - 1)).take (e + 1 - s) := by
    unfold blockLines
    rw [if_neg hne, hround]
  have hmp : matchPhase (splitLines orig) (((splitLines orig).drop (s - 1)).take (e + 1 - s))
      (some s) (some e) 1 buf =
      Sum.inr ⟨(s : ℤ) - 1, 1, chunkAt (splitLines orig) (s - 1) (e + 1 - s)⟩ := by
    unfold matchPhase
    dsimp only
    rw [hg, hge]
    simp only [Bool.and_self, if_true, Option.getD_some]
    rw [if_neg (by omega : ¬ ((splitLines orig).length ≤ e - 1 ∨ e - 1 < s - 1))]
    have hsim : getSimilarity (chunkAt (splitLines orig) (s - 1) (e + 1 - s))
        (joinWith "\n" (((splitLines orig).drop (s - 1)).take (e + 1 - s))) = 1 := by
      unfold chunkAt
      exact getSimilarity_self _
    rw [hsim, if_pos le_rfl]
  unfold applyDiffCore
  dsimp only
  rw [hnb]
  dsimp only
  rw [hbl]
  rw [show ((((splitLines orig).drop (s - 1)).take (e + 1 - s)).isEmpty &&
      !hintGiven (some s)) = false from by rw [hg]; simp]
  rw [if_neg (by simp)]
  have hemp : (((splitLines orig).drop (s - 1)).take (e + 1 - s)).isEmpty = false := by
    have hnN : ¬ ((((splitLines orig).drop (s - 1)).take (e + 1 - s)).isEmpty = true) := by
      rw [List.isEmpty_iff]
      intro hq
      rw [hq] at hlen
      simp at hlen
      omega
    exact Bool.eq_false_iff.mpr hnN
  rw [show ((((splitLines orig).drop (s - 1)).take (e + 1 - s)).isEmpty &&
      hintGiven (some s) && hintGiven (some e) &&
      decide ((some s).getD 0 ≠ (some e).getD 0)) = false from by
    rw [hemp]
    simp]
  rw [if_neg (by simp)]
  rw [hmp]
  dsimp only
  rw [if_neg (by
    rintro (hm | hb)
    · omega
    · exact absurd hb (lt_irrefl 1))]
  have htn : ((s : ℤ) - 1).toNat = s - 1 := by omega
  rw [htn, hlen]
  rw [show s - 1 + (e + 1 - s) = e from by omega]


/-- Witness for C1 at a concrete input (the specification's own
scenario: replace line 2 of `"def f():\n    return 1\n"`). -/
theorem claim_C1_witness :
    (1 ≤ 2 ∧ 2 ≤ 2 ∧ 2 ≤ (splitLines "def f():\n    return 1\n").length ∧
      splitLines (joinWith "\n"
          (((splitLines "def f():\n    return 1\n").drop (2 - 1)).take (2 + 1 - 2))) =
        ((splitLines "def f():\n    return 1\n").drop (2 - 1)).take (2 + 1 - 2)) ∧
      applyDiffCore "def f():\n    return 1\n"
          (joinWith "\n"
            (((splitLines "def f():\n    return 1\n").drop (2 - 1)).take (2 + 1 - 2)))
          "    return 2" (some 2) (some 2) 1 20 =
        DiffResult.success (joinWith (detectEnding "def f():\n    return 1\n")
          ((splitLines "def f():\n    return 1\n").take (2 - 1) ++
            indentReplace
              (((splitLines "def f():\n    return 1\n").drop (2 - 1)).take (2 + 1 - 2))
              (((splitLines "def f():\n    return 1\n").drop (2 - 1)).take (2 + 1 - 2))
              (blockLines "    return 2") ++
            (splitLines "def f():\n    return 1\n").drop 2)) :=
  ⟨⟨by decide, by decide, by decide, by decide⟩,
    claim_C1 "def f():\n    return 1\n" "    return 2" 2 2 20 (by decide) (by decide)
      (by decide) (by decide) (by decide) (by decide)⟩

end ApplyDiffTool

section Examples
open ApplyDiffTool
example : getSimilarity "abc" "abc" = 1 := by decide
example : getSimilarity "x" "" = 1 := by decide
example : getSimilarity "" "x" = 0 := by with_unfolding_all decide
example : getSimilarity "a b c" "b c d" = 1 - 3/5 := by with_unfolding_all decide
example : normalizeStr "  a \t b  " = "a b" := by decide
example : splitLines "a\r\nb\nc\rd" = ["a", "b", "c\rd"] := by decide
example : splitLines "" = [""] := by decide
example : everyLineHasLineNumbers "12 | x\n 3 | y" = true := by decide
example : everyLineHasLineNumbers "12| x" = false := by decide
example : stripLineNumbers "12 | x\n 3 |  y" = "x\n y" := by decide
example : parseDiff "<<<<<<< SEARCH\nfoo\n=======\nbar\n>>>>>>> REPLACE" = some ("foo", "bar") := by decide
example : parseDiff "<<<<<<< SEARCH\n=======\n>>>>>>> REPLACE" = some ("", "") := by decide
example : parseDiff "no markers" = none := by decide
example :
    applyDiff "def f():\n    return 1\n" "<<<<<<< SEARCH\n    return 1\n=======\n    return 2\n>>>>>>> REPLACE"
      (some 2) (some 2) 1 20 = DiffResult.success "def f():\n    return 2\n" := by
  with_unfolding_all decide
example :
    applyDiffCore "a\nb\nc\nd\ne\nf" "" "X" (some 1) none 1 20 =
      DiffResult.success "a\nb\nc\nX\nd\ne\nf" := by
  with_unfolding_all decide
example : probeList 0 10 2 = [5, 6, 4, 7, 3, 8, 2, 1, 0] := by decide
example :
    scanLoop ["a", "b"] "b" 1 0 1 1 2 ⟨-1, 0, ""⟩ =
      runScan ["a", "b"] "b" 1 0 2 ⟨-1, 0, ""⟩ := by
  with_unfolding_all decide
end Examples
